import Mathlib

/-!
Verification of the parallel worker harness in `src/test-multi-gpu.py`.

The script spawns one OS process per GPU (`multiprocessing.Process`), each
running `run_model_on_gpu(gpu_id, model_name, prompts, results_queue)`:
the worker first sets `os.environ['CUDA_VISIBLE_DEVICES'] = str(gpu_id)`,
then (inside a `try`) constructs an `LLM` engine, calls `llm.generate`,
builds one result dict per prompt, and puts the batch on the shared queue;
on any `Exception` it puts `[]` instead.  The parent (`test_multi_gpu`)
joins all processes, drains the queue with `while not results_queue.empty()`,
and prints the merged results as `sorted(all_results, key=lambda x: x['gpu_id'])`.

The embedding below models:
  * the opaque inference library (`LLM(...)` construction and `llm.generate`)
    as an `InferenceService` record of fallible functions — the library is an
    external black box, so its behaviour is a parameter;
  * `os.environ` as an association list; `multiprocessing` process isolation
    as each child receiving its own copy of the parent environment at fork
    (POSIX fork/spawn semantics: a child's `os.environ` write never reaches
    the parent or siblings);
  * the shared queue as the list of batches it holds, in arrival order; the
    arrival order of the workers' batches is nondeterministic, so theorems
    quantify over an arbitrary permutation of the dispatched batches;
  * Python's stable `sorted(..., key=lambda x: x['gpu_id'])` as a stable
    insertion sort on the `gpu_id` key (stable sorting by a key is a unique
    function of the input list, so any stable sort is a faithful embedding);
  * the worker's and harness's externally visible actions as explicit event
    traces, to state ordering properties.

`print` calls are not modelled (no claim mentions them).  The result dicts
of the source carry keys `gpu_id`, `prompt`, `response`; the loop index `i`
of `enumerate(outputs)` (the position of the prompt in the payload, the
spec's `item_index`) is recorded as an explicit field.
-/

namespace MultiGpu

/-- Result record built by the worker loop (`results.append({...})`,
`src/test-multi-gpu.py` lines 36-41).  `item_index` is the loop index `i`
of `enumerate(outputs)`, i.e. the position of the prompt in the payload. -/
structure WorkResult where
  gpu_id : Nat
  item_index : Nat
  prompt : String
  response : String
  deriving DecidableEq, Repr

/-- Assignment handed to one worker: its exclusive resource id and the
ordered prompt list (`gpu_prompts[gpu_id]` in the source). -/
structure WorkAssignment where
  resource_id : Nat
  payload : List String
  deriving DecidableEq, Repr

/-- Process environment, modelling `os.environ`: an association list from
variable names to values, looked up front-to-back. -/
def EnvMap : Type := List (String × String)

instance : DecidableEq EnvMap := by
  unfold EnvMap
  infer_instance

/-- Assignment `os.environ[k] = v`: the new binding shadows any old one. -/
def setEnv (env : EnvMap) (k v : String) : EnvMap := (k, v) :: env

/-- Lookup `os.environ.get(k)`. -/
def lookupEnv (env : EnvMap) (k : String) : Option String :=
  (List.find? (fun p => p.1 == k) env).map (·.2)

/-- Environment variable written by the worker (line 13 of the source). -/
def cudaVisibleDevices : String := "CUDA_VISIBLE_DEVICES"

/-- Externally visible steps of one worker execution, in program order. -/
inductive Event where
  | setVisibility (gpu_id : Nat)
  | constructEngine
  | generateCall
  | queuePut
  deriving DecidableEq, Repr

/-- Predicate picking out the hardware-visibility mutation events. -/
def Event.isSetVisibility : Event → Bool
  | .setVisibility _ => true
  | _ => false

/-- Opaque inference library: `LLM(...)` construction and `llm.generate`.
Both may fail (raise), and both may depend on the visible device (the worker
has already scoped visibility to its `gpu_id` when it calls them), so they
take the gpu id as an argument. -/
structure InferenceService where
  construct : Nat → String → Except String Unit
  generate : Nat → String → List String → Except String (List String)

/-- Everything one worker run produces: its final process environment, the
sequence of queue `put` operations it performed (each carrying one batch),
and its event trace. -/
structure WorkerOutcome where
  envAfter : EnvMap
  puts : List (List WorkResult)
  trace : List Event

/-- Result-collection loop of the worker (lines 35-41):
`for i, output in enumerate(outputs): results.append({'gpu_id': gpu_id,
'prompt': prompts[i], 'response': output.outputs[0].text.strip()})`.
`prompts[i]` raises `IndexError` when `i` is out of range, which the
worker's `except` catches, so the builder is fallible. -/
def buildResults (gpu_id : Nat) (prompts : List String) :
    List (Nat × String) → Except String (List WorkResult)
  | [] => .ok []
  | (i, out) :: rest =>
      match prompts[i]? with
      | none => .error "IndexError"
      | some p =>
          match buildResults gpu_id prompts rest with
          | .error e => .error e
          | .ok tail =>
              .ok ({ gpu_id := gpu_id, item_index := i, prompt := p,
                     response := out.trim } :: tail)

/-- Worker body `run_model_on_gpu(gpu_id, model_name, prompts, results_queue)`
(lines 10-48).  It mutates its own process environment, then inside `try`
constructs the engine, generates, and builds the batch; on success it puts
the batch, on any exception it puts `[]`.  Exactly one `put` happens on
every path. -/
def run_model_on_gpu (svc : InferenceService) (gpu_id : Nat)
    (model_name : String) (prompts : List String) (env0 : EnvMap) :
    WorkerOutcome :=
  let env := setEnv env0 cudaVisibleDevices (toString gpu_id)
  match svc.construct gpu_id model_name with
  | .error _ =>
      { envAfter := env, puts := [[]],
        trace := [.setVisibility gpu_id, .constructEngine, .queuePut] }
  | .ok _ =>
      match svc.generate gpu_id model_name prompts with
      | .error _ =>
          { envAfter := env, puts := [[]],
            trace := [.setVisibility gpu_id, .constructEngine, .generateCall,
                      .queuePut] }
      | .ok outputs =>
          match buildResults gpu_id prompts outputs.enum with
          | .error _ =>
              { envAfter := env, puts := [[]],
                trace := [.setVisibility gpu_id, .constructEngine,
                          .generateCall, .queuePut] }
          | .ok results =>
              { envAfter := env, puts := [results],
                trace := [.setVisibility gpu_id, .constructEngine,
                          .generateCall, .queuePut] }

/-- Worker runs spawned by the dispatch loop (lines 78-84): one process per
assignment, each child starting from a copy of the parent environment. -/
def spawnAll (svc : InferenceService) (model_name : String) (env : EnvMap)
    (A : List WorkAssignment) : List WorkerOutcome :=
  A.map (fun a => run_model_on_gpu svc a.resource_id model_name a.payload env)

/-- Batch the worker for assignment `a` puts on the queue. -/
def batchOf (svc : InferenceService) (model_name : String) (env : EnvMap)
    (a : WorkAssignment) : List WorkResult :=
  (run_model_on_gpu svc a.resource_id model_name a.payload env).puts.flatten

/-- Batches the dispatched workers produce, in dispatch order.  The queue's
arrival order is an arbitrary permutation of this list. -/
def dispatchedBatches (svc : InferenceService) (model_name : String)
    (env : EnvMap) (A : List WorkAssignment) : List (List WorkResult) :=
  A.map (batchOf svc model_name env)

/-- Drain loop of the harness (lines 91-94):
`while not results_queue.empty(): all_results.extend(results_queue.get())`.
State is (queue contents, accumulated list); the loop runs until the queue
is empty. -/
def drainLoop : List (List WorkResult) → List WorkResult →
    List (List WorkResult) × List WorkResult
  | [], acc => ([], acc)
  | b :: q, acc => drainLoop q (acc ++ b)

/-- Stable insertion of `x` into a list already sorted by `gpu_id`:
`x` goes after every element with a strictly smaller key and before the
first element with a greater-or-equal key, so earlier-arrived elements with
an equal key stay in front of later ones.  Together with `sortByGpu` this
embeds Python's stable `sorted(all_results, key=lambda x: x['gpu_id'])`
(line 101); stable sorting by a key is a unique function of the input, so
any stable sorting algorithm is a faithful embedding of `sorted`. -/
def insertByGpu (x : WorkResult) : List WorkResult → List WorkResult
  | [] => [x]
  | y :: ys => if y.gpu_id < x.gpu_id then y :: insertByGpu x ys else x :: y :: ys

/-- Stable sort by `gpu_id`, embedding `sorted(..., key=lambda x: x['gpu_id'])`. -/
def sortByGpu : List WorkResult → List WorkResult
  | [] => []
  | x :: xs => insertByGpu x (sortByGpu xs)

/-- Collect phase of the harness (lines 90-101), applied to the queue
contents in their arrival order: drain everything, then sort by `gpu_id`. -/
def collectPhase (arrival : List (List WorkResult)) : List WorkResult :=
  sortByGpu (drainLoop arrival []).2

/-- Externally visible steps of `test_multi_gpu` (lines 74-101), in program
order: spawn each worker, join each worker, drain each queue entry, sort. -/
inductive HEvent where
  | spawnEv (k : Nat)
  | joinEv (k : Nat)
  | getEv (b : List WorkResult)
  | sortEv
  deriving DecidableEq, Repr

/-- Trace of the harness for `n` workers and queue arrival order `arrival`:
the spawn loop, then the join loop, then the drain loop, then the sort. -/
def harnessTrace (n : Nat) (arrival : List (List WorkResult)) : List HEvent :=
  ((List.range n).map .spawnEv) ++ ((List.range n).map .joinEv) ++
    (arrival.map .getEv) ++ [.sortEv]

/-- Environments of the whole system after a run: the parent's environment
and each child's.  At `process.start()` each child receives a copy of the
parent environment (fork semantics); a child's `os.environ` write mutates
only that copy.  `test_multi_gpu` itself never writes `os.environ`, so the
parent component is the unchanged input environment. -/
def harnessEnvs (svc : InferenceService) (model_name : String) (env : EnvMap)
    (A : List WorkAssignment) : EnvMap × List EnvMap :=
  (env, A.map (fun a =>
    (run_model_on_gpu svc a.resource_id model_name a.payload env).envAfter))

/-- Failure of the worker's guarded computation: the engine constructor
raises, or `generate` raises, or the result loop raises (`IndexError`). -/
def computationFails (svc : InferenceService) (gpu_id : Nat)
    (model_name : String) (prompts : List String) : Prop :=
  (∃ e, svc.construct gpu_id model_name = .error e) ∨
  (∃ e, svc.generate gpu_id model_name prompts = .error e) ∨
  (∃ outs e, svc.generate gpu_id model_name prompts = .ok outs ∧
      buildResults gpu_id prompts outs.enum = .error e)

/-- Intended order of the final result list: by `resource_id`, and inside
one resource by `item_index`. -/
def lexLe (r s : WorkResult) : Prop :=
  r.gpu_id < s.gpu_id ∨ (r.gpu_id = s.gpu_id ∧ r.item_index < s.item_index)

/-! Concrete data of `test_multi_gpu` (lines 54-70). -/

/-- Model identifier fixed by the script (line 54). -/
def model_name : String := "Qwen/Qwen2.5-7B-Instruct"

/-- Prompt 0 of GPU 0 (line 59). -/
def p00 : String :=
  "Current date context: Today is August 16, 2025. Question: What year is it currently?"

/-- Prompt 1 of GPU 0 (line 60). -/
def p01 : String :=
  "Current date context: Today is August 16, 2025. Question: What month and year is it currently?"

/-- Prompt 0 of GPU 1 (line 63). -/
def p10 : String :=
  "Current date context: Today is August 16, 2025. Academic year context: Fall 2024 semester ended in December 2024, Spring 2025 semester ended in May 2025. Question: If I ask about courses from 'last year', which academic year should that refer to?"

/-- Prompt 1 of GPU 1 (line 64). -/
def p11 : String :=
  "Current date context: Today is August 16, 2025. Question: If I'm starting Fall 2025 semester soon, what was the previous academic year?"

/-- Prompt 0 of GPU 2 (line 67). -/
def p20 : String :=
  "Current date context: Today is August 16, 2025. I'm a student. Question: If I want to look at my course load from last academic year, what time period should I examine?"

/-- Prompt 1 of GPU 2 (line 68). -/
def p21 : String :=
  "Current date context: Today is August 16, 2025. Question: Calculate how many months ago the Spring 2025 semester ended if it ended in May 2025."

/-- The three assignments of the script: `for gpu_id in range(3)` with
payload `gpu_prompts[gpu_id]` (lines 57-70, 78-81). -/
def assignments3 : List WorkAssignment :=
  [⟨0, [p00, p01]⟩, ⟨1, [p10, p11]⟩, ⟨2, [p20, p21]⟩]

/-- Inference service of the spec's test scenario: construction always
succeeds and generation echoes each prompt with an `echo:` prefix. -/
def echoService : InferenceService where
  construct := fun _ _ => .ok ()
  generate := fun _ _ prompts => .ok (prompts.map (fun p => "echo:" ++ p))

/-! Facts about the stable sort `sortByGpu`. -/

theorem insertByGpu_perm (x : WorkResult) (l : List WorkResult) :
    (insertByGpu x l).Perm (x :: l) := by
  induction l with
  | nil => simp [insertByGpu]
  | cons y ys ih =>
      by_cases h : y.gpu_id < x.gpu_id
      · simp only [insertByGpu, if_pos h]
        exact (ih.cons y).trans (List.Perm.swap x y ys)
      · simp [insertByGpu, if_neg h]

theorem sortByGpu_perm (l : List WorkResult) : (sortByGpu l).Perm l := by
  induction l with
  | nil => simp [sortByGpu]
  | cons x xs ih => exact (insertByGpu_perm x (sortByGpu xs)).trans (ih.cons x)

theorem pairwise_insertByGpu (x : WorkResult) (l : List WorkResult)
    (h : l.Pairwise (fun a b => a.gpu_id ≤ b.gpu_id)) :
    (insertByGpu x l).Pairwise (fun a b => a.gpu_id ≤ b.gpu_id) := by
  induction l with
  | nil => simp [insertByGpu]
  | cons y ys ih =>
      rcases List.pairwise_cons.mp h with ⟨hy, hys⟩
      by_cases hlt : y.gpu_id < x.gpu_id
      · simp only [insertByGpu, if_pos hlt]
        refine List.pairwise_cons.mpr ⟨?_, ih hys⟩
        intro z hz
        rcases List.mem_cons.mp ((insertByGpu_perm x ys).mem_iff.mp hz) with hz | hz
        · subst hz; exact Nat.le_of_lt hlt
        · exact hy z hz
      · simp only [insertByGpu, if_neg hlt]
        have hxy : x.gpu_id ≤ y.gpu_id := Nat.le_of_not_lt hlt
        refine List.pairwise_cons.mpr ⟨?_, h⟩
        intro z hz
        rcases List.mem_cons.mp hz with hz | hz
        · subst hz; exact hxy
        · exact hxy.trans (hy z hz)

theorem sortByGpu_pairwise (l : List WorkResult) :
    (sortByGpu l).Pairwise (fun a b => a.gpu_id ≤ b.gpu_id) := by
  induction l with
  | nil => simp [sortByGpu]
  | cons x xs ih => exact pairwise_insertByGpu x (sortByGpu xs) ih

theorem insertByGpu_eq_cons (x : WorkResult) (l : List WorkResult)
    (h : ∀ z ∈ l, ¬ z.gpu_id < x.gpu_id) : insertByGpu x l = x :: l := by
  cases l with
  | nil => rfl
  | cons y ys => simp [insertByGpu, h y (List.mem_cons_self y ys)]

theorem sortByGpu_eq_of_pairwise (l : List WorkResult)
    (h : l.Pairwise (fun a b => a.gpu_id ≤ b.gpu_id)) : sortByGpu l = l := by
  induction l with
  | nil => rfl
  | cons x xs ih =>
      rcases List.pairwise_cons.mp h with ⟨hx, hxs⟩
      simp only [sortByGpu, ih hxs]
      exact insertByGpu_eq_cons x xs (fun z hz => Nat.not_lt.mpr (hx z hz))

theorem filter_insertByGpu (p : WorkResult → Bool) (x : WorkResult)
    (l : List WorkResult) (h : l.Pairwise (fun a b => a.gpu_id ≤ b.gpu_id)) :
    (insertByGpu x l).filter p =
      if p x then insertByGpu x (l.filter p) else l.filter p := by
  induction l with
  | nil => by_cases hx : p x <;> simp [insertByGpu, hx]
  | cons y ys ih =>
      rcases List.pairwise_cons.mp h with ⟨hy, hys⟩
      by_cases hlt : y.gpu_id < x.gpu_id
      · simp only [insertByGpu, if_pos hlt]
        by_cases hpy : p y
        · by_cases hpx : p x
          · simp [List.filter_cons, hpy, hpx, ih hys, insertByGpu, hlt]
          · simp [List.filter_cons, hpy, hpx, ih hys]
        · by_cases hpx : p x
          · simp [List.filter_cons, hpy, hpx, ih hys]
          · simp [List.filter_cons, hpy, hpx, ih hys]
      · simp only [insertByGpu, if_neg hlt]
        by_cases hpx : p x
        · have hmem : ∀ z ∈ (y :: ys).filter p, ¬ z.gpu_id < x.gpu_id := by
            intro z hz
            rcases List.mem_cons.mp (List.mem_of_mem_filter hz) with hz' | hz'
            · subst hz'; exact hlt
            · exact fun hc =>
                hlt (Nat.lt_of_le_of_lt (hy z hz') hc)
          have hcons := insertByGpu_eq_cons x ((y :: ys).filter p) hmem
          simp only [List.filter_cons] at hcons
          simp [List.filter_cons, hpx, hcons]
        · simp [List.filter_cons, hpx]

theorem filter_sortByGpu (p : WorkResult → Bool) (l : List WorkResult) :
    (sortByGpu l).filter p = sortByGpu (l.filter p) := by
  induction l with
  | nil => rfl
  | cons x xs ih =>
      simp only [sortByGpu,
        filter_insertByGpu p x (sortByGpu xs) (sortByGpu_pairwise xs), ih,
        List.filter_cons]
      by_cases hpx : p x <;> simp [hpx, sortByGpu]

/-! Facts about the drain loop and the collect phase. -/

theorem drainLoop_eq (q : List (List WorkResult)) (acc : List WorkResult) :
    drainLoop q acc = ([], acc ++ q.flatten) := by
  induction q generalizing acc with
  | nil => simp [drainLoop]
  | cons b q ih => simp [drainLoop, ih, List.flatten_cons, List.append_assoc]

theorem collectPhase_eq (arrival : List (List WorkResult)) :
    collectPhase arrival = sortByGpu arrival.flatten := by
  simp [collectPhase, drainLoop_eq]

/-! Facts about the worker body. -/

theorem envAfter_run (svc : InferenceService) (g : Nat) (m : String)
    (ps : List String) (env : EnvMap) :
    (run_model_on_gpu svc g m ps env).envAfter =
      setEnv env cudaVisibleDevices (toString g) := by
  simp only [run_model_on_gpu]
  split
  · rfl
  · split
    · rfl
    · split <;> rfl

theorem puts_run (svc : InferenceService) (g : Nat) (m : String)
    (ps : List String) (env : EnvMap) :
    (run_model_on_gpu svc g m ps env).puts =
      [(run_model_on_gpu svc g m ps env).puts.flatten] := by
  simp only [run_model_on_gpu]
  split
  · rfl
  · split
    · rfl
    · split <;> simp

theorem trace_run (svc : InferenceService) (g : Nat) (m : String)
    (ps : List String) (env : EnvMap) :
    (run_model_on_gpu svc g m ps env).trace =
        [.setVisibility g, .constructEngine, .queuePut] ∨
      (run_model_on_gpu svc g m ps env).trace =
        [.setVisibility g, .constructEngine, .generateCall, .queuePut] := by
  simp only [run_model_on_gpu]
  split
  · exact Or.inl rfl
  · split
    · exact Or.inr rfl
    · split
      · exact Or.inr rfl
      · exact Or.inr rfl

/-! Facts about the worker's result-collection loop. -/

theorem buildResults_gpu (g : Nat) (ps : List String) (l : List (Nat × String))
    (rs : List WorkResult) (h : buildResults g ps l = .ok rs) :
    ∀ r ∈ rs, r.gpu_id = g := by
  induction l generalizing rs with
  | nil =>
      simp only [buildResults, Except.ok.injEq] at h
      subst h; simp
  | cons q rest ih =>
      obtain ⟨i, out⟩ := q
      simp only [buildResults] at h
      rcases hp : ps[i]? with _ | p <;> rw [hp] at h
      · exact absurd h (by simp)
      · rcases hb : buildResults g ps rest with e | tail <;> rw [hb] at h
        · exact absurd h (by simp)
        · simp only [Except.ok.injEq] at h
          subst h
          intro r hr
          rcases List.mem_cons.mp hr with hr | hr
          · subst hr; rfl
          · exact ih tail hb r hr

theorem buildResults_idx (g : Nat) (ps : List String) (l : List (Nat × String))
    (rs : List WorkResult) (h : buildResults g ps l = .ok rs) :
    rs.map (·.item_index) = l.map (·.1) := by
  induction l generalizing rs with
  | nil =>
      simp only [buildResults, Except.ok.injEq] at h
      subst h; rfl
  | cons q rest ih =>
      obtain ⟨i, out⟩ := q
      simp only [buildResults] at h
      rcases hp : ps[i]? with _ | p <;> rw [hp] at h
      · exact absurd h (by simp)
      · rcases hb : buildResults g ps rest with e | tail <;> rw [hb] at h
        · exact absurd h (by simp)
        · simp only [Except.ok.injEq] at h
          subst h
          simp [ih tail hb]

theorem buildResults_ok (g : Nat) (ps : List String) (l : List (Nat × String))
    (h : ∀ q ∈ l, q.1 < ps.length) :
    ∃ rs, buildResults g ps l = .ok rs := by
  induction l with
  | nil => exact ⟨[], rfl⟩
  | cons q rest ih =>
      obtain ⟨i, out⟩ := q
      have hi : i < ps.length := h (i, out) (List.mem_cons_self _ _)
      obtain ⟨tail, htail⟩ := ih (fun q hq => h q (List.mem_cons_of_mem _ hq))
      refine ⟨{ gpu_id := g, item_index := i, prompt := ps[i],
                response := out.trim } :: tail, ?_⟩
      simp [buildResults, List.getElem?_eq_getElem hi, htail]

/-! Facts about one worker's batch. -/

theorem batchOf_cases (svc : InferenceService) (m : String) (env : EnvMap)
    (a : WorkAssignment) :
    batchOf svc m env a = [] ∨
    ∃ outs rs, svc.construct a.resource_id m = .ok () ∧
      svc.generate a.resource_id m a.payload = .ok outs ∧
      buildResults a.resource_id a.payload outs.enum = .ok rs ∧
      batchOf svc m env a = rs := by
  unfold batchOf run_model_on_gpu
  rcases hc : svc.construct a.resource_id m with e | u
  · simp [hc]
  · rcases hg : svc.generate a.resource_id m a.payload with e | outs
    · simp [hc, hg]
    · rcases hb : buildResults a.resource_id a.payload outs.enum with e | rs
      · simp [hc, hg, hb]
      · right
        exact ⟨outs, rs, rfl, rfl, hb, by simp [hb]⟩

theorem batchOf_gpu (svc : InferenceService) (m : String) (env : EnvMap)
    (a : WorkAssignment) :
    ∀ r ∈ batchOf svc m env a, r.gpu_id = a.resource_id := by
  rcases batchOf_cases svc m env a with h | ⟨outs, rs, _, _, hb, hbatch⟩
  · rw [h]; simp
  · rw [hbatch]; exact buildResults_gpu _ _ _ _ hb

theorem batchOf_pairwise_idx (svc : InferenceService) (m : String)
    (env : EnvMap) (a : WorkAssignment) :
    (batchOf svc m env a).Pairwise (fun r s => r.item_index < s.item_index) := by
  rcases batchOf_cases svc m env a with h | ⟨outs, rs, _, _, hb, hbatch⟩
  · rw [h]; simp
  · rw [hbatch]
    have hmap : rs.map (·.item_index) = List.range outs.length := by
      rw [buildResults_idx _ _ _ _ hb]
      exact List.enum_map_fst outs
    have hpw : (rs.map (·.item_index)).Pairwise (· < ·) := by
      rw [hmap]; exact List.pairwise_lt_range outs.length
    simpa using List.pairwise_map.mp hpw

theorem batchOf_fail (svc : InferenceService) (m : String) (env : EnvMap)
    (a : WorkAssignment)
    (hf : computationFails svc a.resource_id m a.payload) :
    batchOf svc m env a = [] := by
  rcases batchOf_cases svc m env a with h | ⟨outs, rs, hc, hg, hb, hbatch⟩
  · exact h
  · exfalso
    rcases hf with ⟨e, he⟩ | ⟨e, he⟩ | ⟨outs', e, hgen', hb'⟩
    · rw [hc] at he; exact absurd he (by simp)
    · rw [hg] at he; exact absurd he (by simp)
    · rw [hg] at hgen'
      have : outs = outs' := by simpa using hgen'
      subst this
      rw [hb] at hb'; exact absurd hb' (by simp)

theorem batchOf_success (svc : InferenceService) (m : String) (env : EnvMap)
    (a : WorkAssignment) (outs : List String)
    (hc : svc.construct a.resource_id m = .ok ())
    (hg : svc.generate a.resource_id m a.payload = .ok outs)
    (hlen : outs.length ≤ a.payload.length) :
    buildResults a.resource_id a.payload outs.enum = .ok (batchOf svc m env a) := by
  have hidx : ∀ q ∈ outs.enum, q.1 < a.payload.length := by
    intro q hq
    have h1 : q.1 ∈ outs.enum.map Prod.fst := List.mem_map_of_mem Prod.fst hq
    rw [List.enum_map_fst] at h1
    exact Nat.lt_of_lt_of_le (List.mem_range.mp h1) hlen
  obtain ⟨rs, hrs⟩ := buildResults_ok a.resource_id a.payload outs.enum hidx
  have hbatch : batchOf svc m env a = rs := by
    unfold batchOf run_model_on_gpu
    simp [hc, hg, hrs]
  rw [hbatch]; exact hrs

/-! The central characterization: in the merged, sorted result list, the
entries with a given `gpu_id` are exactly the owning worker's batch, in the
worker's own order — for any arrival order of the batches. -/

theorem flatten_eq_nil_of_forall (ls : List (List WorkResult))
    (h : ∀ x ∈ ls, x = []) : ls.flatten = [] :=
  List.flatten_eq_nil_iff.mpr h

theorem flatten_eq_single (v : List WorkResult) (hv : v ≠ [])
    (ls : List (List WorkResult)) (hall : ∀ x ∈ ls, x = [] ∨ x = v)
    (hc : ls.countP (fun x => decide (x = v)) = 1) : ls.flatten = v := by
  induction ls with
  | nil => simp at hc
  | cons x t ih =>
      rcases hall x (List.mem_cons_self x t) with hx | hx
      · subst hx
        simp only [List.flatten_cons, List.nil_append]
        refine ih (fun y hy => hall y (List.mem_cons_of_mem _ hy)) ?_
        rwa [List.countP_cons_of_neg _ _ (by simpa using Ne.symm hv)] at hc
      · subst hx
        simp only [List.flatten_cons]
        rw [List.countP_cons_of_pos _ _ (by simp)] at hc
        have hct : t.countP (fun y => decide (y = x)) = 0 := by omega
        have ht : ∀ y ∈ t, y = [] := by
          intro y hy
          rcases hall y (List.mem_cons_of_mem _ hy) with h | h
          · exact h
          · exfalso
            have hpos : 0 < t.countP (fun y => decide (y = x)) :=
              List.countP_pos_iff.mpr ⟨y, hy, by simp [h]⟩
            omega
        rw [flatten_eq_nil_of_forall t ht, List.append_nil]

theorem filter_flatten_arrival (svc : InferenceService) (m : String)
    (env : EnvMap) (A : List WorkAssignment) (a : WorkAssignment) (g : Nat)
    (arrival : List (List WorkResult))
    (hdist : (A.map (·.resource_id)).Nodup)
    (ha : a ∈ A) (hg : a.resource_id = g)
    (hperm : arrival.Perm (dispatchedBatches svc m env A)) :
    arrival.flatten.filter (fun r => r.gpu_id == g) = batchOf svc m env a := by
  set p : WorkResult → Bool := fun r => r.gpu_id == g with hp
  have hfa : (batchOf svc m env a).filter p = batchOf svc m env a := by
    refine List.filter_eq_self.mpr ?_
    intro r hr
    simp [hp, batchOf_gpu svc m env a r hr, hg]
  have hfnil : ∀ a' ∈ A, a'.resource_id ≠ g →
      (batchOf svc m env a').filter p = [] := by
    intro a' _ hne
    refine List.filter_eq_nil_iff.mpr ?_
    intro r hr
    simp [hp, batchOf_gpu svc m env a' r hr, hne]
  have hmapped : (arrival.map (·.filter p)).Perm
      (A.map (fun a' => (batchOf svc m env a').filter p)) := by
    have := hperm.map (·.filter p)
    simpa [dispatchedBatches, List.map_map, Function.comp] using this
  have hall : ∀ x ∈ arrival.map (·.filter p), x = [] ∨ x = batchOf svc m env a := by
    intro x hx
    have hx' := hmapped.mem_iff.mp hx
    obtain ⟨a', ha', hxa'⟩ := List.mem_map.mp hx'
    by_cases hrid : a'.resource_id = g
    · have : a' = a := List.inj_on_of_nodup_map hdist ha' ha (by rw [hrid, hg])
      subst this
      right; rw [← hxa', hfa]
    · left; rw [← hxa']; exact hfnil a' ha' hrid
  rw [List.filter_flatten]
  by_cases hb : batchOf svc m env a = []
  · rw [hb]
    refine flatten_eq_nil_of_forall _ ?_
    intro x hx
    rcases hall x hx with h | h
    · exact h
    · rw [h, hb]
  · refine flatten_eq_single (batchOf svc m env a) hb _ hall ?_
    have hcnt1 :=
      hmapped.countP_eq (fun x => decide (x = batchOf svc m env a))
    have hcnt2 : (A.map (fun a' => (batchOf svc m env a').filter p)).countP
        (fun x => decide (x = batchOf svc m env a)) =
        A.countP (fun a' =>
          decide ((batchOf svc m env a').filter p = batchOf svc m env a)) := by
      rw [List.countP_map]
      rfl
    have hcongr : ∀ a' ∈ A,
        (decide ((batchOf svc m env a').filter p = batchOf svc m env a) = true ↔
          decide (a' = a) = true) := by
      intro a' ha'
      simp only [decide_eq_true_eq]
      constructor
      · intro hfe
        by_cases hrid : a'.resource_id = g
        · exact List.inj_on_of_nodup_map hdist ha' ha (by rw [hrid, hg])
        · exact absurd hfe (by rw [hfnil a' ha' hrid]; exact Ne.symm hb)
      · intro he
        rw [he]
        exact hfa
    have hnodupA : A.Nodup := List.Nodup.of_map _ hdist
    have hcnt3 : A.countP (fun a' => decide (a' = a)) = 1 :=
      List.count_eq_one_of_mem hnodupA ha
    exact hcnt1.trans (hcnt2.trans ((List.countP_congr hcongr).trans hcnt3))

theorem filter_flatten_arrival_nil (svc : InferenceService) (m : String)
    (env : EnvMap) (A : List WorkAssignment) (g : Nat)
    (arrival : List (List WorkResult))
    (hg : g ∉ A.map (·.resource_id))
    (hperm : arrival.Perm (dispatchedBatches svc m env A)) :
    arrival.flatten.filter (fun r => r.gpu_id == g) = [] := by
  rw [List.filter_flatten]
  refine flatten_eq_nil_of_forall _ ?_
  intro x hx
  have hmapped : (arrival.map (·.filter (fun r => r.gpu_id == g))).Perm
      (A.map (fun a' => (batchOf svc m env a').filter (fun r => r.gpu_id == g))) := by
    have := hperm.map (·.filter (fun r => r.gpu_id == g))
    simpa [dispatchedBatches, List.map_map, Function.comp] using this
  obtain ⟨a', ha', hxa'⟩ := List.mem_map.mp (hmapped.mem_iff.mp hx)
  rw [← hxa']
  refine List.filter_eq_nil_iff.mpr ?_
  intro r hr
  have hrid : a'.resource_id ≠ g := by
    intro h
    exact hg (h ▸ List.mem_map_of_mem (·.resource_id) ha')
  simp [batchOf_gpu svc m env a' r hr, hrid]

theorem batchOf_pairwise_gpu (svc : InferenceService) (m : String)
    (env : EnvMap) (a : WorkAssignment) :
    (batchOf svc m env a).Pairwise (fun r s => r.gpu_id ≤ s.gpu_id) := by
  refine List.pairwise_of_forall_mem_list ?_
  intro r hr s hs
  rw [batchOf_gpu svc m env a r hr, batchOf_gpu svc m env a s hs]

theorem filter_collectPhase (svc : InferenceService) (m : String)
    (env : EnvMap) (A : List WorkAssignment) (a : WorkAssignment) (g : Nat)
    (arrival : List (List WorkResult))
    (hdist : (A.map (·.resource_id)).Nodup)
    (ha : a ∈ A) (hg : a.resource_id = g)
    (hperm : arrival.Perm (dispatchedBatches svc m env A)) :
    (collectPhase arrival).filter (fun r => r.gpu_id == g) = batchOf svc m env a := by
  rw [collectPhase_eq, filter_sortByGpu,
    filter_flatten_arrival svc m env A a g arrival hdist ha hg hperm,
    sortByGpu_eq_of_pairwise _ (batchOf_pairwise_gpu svc m env a)]

theorem filter_collectPhase_nil (svc : InferenceService) (m : String)
    (env : EnvMap) (A : List WorkAssignment) (g : Nat)
    (arrival : List (List WorkResult))
    (hg : g ∉ A.map (·.resource_id))
    (hperm : arrival.Perm (dispatchedBatches svc m env A)) :
    (collectPhase arrival).filter (fun r => r.gpu_id == g) = [] := by
  rw [collectPhase_eq, filter_sortByGpu,
    filter_flatten_arrival_nil svc m env A g arrival hg hperm]
  rfl

theorem pairwise_lex_of_filters (l : List WorkResult)
    (h1 : l.Pairwise (fun a b => a.gpu_id ≤ b.gpu_id))
    (h2 : ∀ g, (l.filter (fun r => r.gpu_id == g)).Pairwise
        (fun a b => a.item_index < b.item_index)) :
    l.Pairwise lexLe := by
  induction l with
  | nil => constructor
  | cons x t ih =>
      rcases List.pairwise_cons.mp h1 with ⟨hx, ht⟩
      refine List.pairwise_cons.mpr ⟨?_, ih ht ?_⟩
      · intro b hb
        rcases Nat.lt_or_eq_of_le (hx b hb) with hlt | heq
        · exact Or.inl hlt
        · right
          refine ⟨heq, ?_⟩
          have hfil := h2 x.gpu_id
          rw [List.filter_cons_of_pos (by simp)] at hfil
          rcases List.pairwise_cons.mp hfil with ⟨hhead, _⟩
          exact hhead b (List.mem_filter.mpr ⟨hb, by simp [heq]⟩)
      · intro g
        have hfil := h2 g
        by_cases hxg : x.gpu_id = g
        · rw [List.filter_cons_of_pos (by simp [hxg])] at hfil
          exact (List.pairwise_cons.mp hfil).2
        · rwa [List.filter_cons_of_neg (by simp [hxg])] at hfil

theorem sorted_decomp3 (l : List WorkResult)
    (h : l.Pairwise (fun a b => a.gpu_id ≤ b.gpu_id))
    (hlt : ∀ x ∈ l, x.gpu_id < 3) :
    l = l.filter (fun r => r.gpu_id == 0) ++ l.filter (fun r => r.gpu_id == 1) ++
        l.filter (fun r => r.gpu_id == 2) := by
  induction l with
  | nil => rfl
  | cons x t ih =>
      rcases List.pairwise_cons.mp h with ⟨hx, ht⟩
      have hxlt : x.gpu_id < 3 := hlt x (List.mem_cons_self x t)
      have iht := ih ht (fun y hy => hlt y (List.mem_cons_of_mem _ hy))
      have hcase : x.gpu_id = 0 ∨ x.gpu_id = 1 ∨ x.gpu_id = 2 := by omega
      rcases hcase with hg | hg | hg
      · rw [List.filter_cons_of_pos (by simp [hg]),
            List.filter_cons_of_neg (by simp [hg]),
            List.filter_cons_of_neg (by simp [hg])]
        simp only [List.cons_append]
        exact congrArg (List.cons x) iht
      · have hf0 : t.filter (fun r => r.gpu_id == 0) = [] := by
          refine List.filter_eq_nil_iff.mpr ?_
          intro y hy
          have hle := hx y hy
          simp only [beq_iff_eq]
          omega
        rw [List.filter_cons_of_neg (by simp [hg]),
            List.filter_cons_of_pos (by simp [hg]),
            List.filter_cons_of_neg (by simp [hg]), hf0]
        rw [hf0] at iht
        simp only [List.nil_append] at iht ⊢
        exact congrArg (List.cons x) iht
      · have hf0 : t.filter (fun r => r.gpu_id == 0) = [] := by
          refine List.filter_eq_nil_iff.mpr ?_
          intro y hy
          have hle := hx y hy
          simp only [beq_iff_eq]
          omega
        have hf1 : t.filter (fun r => r.gpu_id == 1) = [] := by
          refine List.filter_eq_nil_iff.mpr ?_
          intro y hy
          have hle := hx y hy
          simp only [beq_iff_eq]
          omega
        rw [List.filter_cons_of_neg (by simp [hg]),
            List.filter_cons_of_neg (by simp [hg]),
            List.filter_cons_of_pos (by simp [hg]), hf0, hf1]
        rw [hf0, hf1] at iht
        simp only [List.nil_append, List.append_nil] at iht ⊢
        exact congrArg (List.cons x) iht

theorem mem_collectPhase_gpu (svc : InferenceService) (m : String)
    (env : EnvMap) (A : List WorkAssignment)
    (arrival : List (List WorkResult)) (x : WorkResult)
    (hperm : arrival.Perm (dispatchedBatches svc m env A))
    (hx : x ∈ collectPhase arrival) : ∃ a ∈ A, x.gpu_id = a.resource_id := by
  rw [collectPhase_eq] at hx
  have hx1 : x ∈ arrival.flatten := (sortByGpu_perm _).mem_iff.mp hx
  obtain ⟨b, hb, hxb⟩ := List.mem_flatten.mp hx1
  have hb' : b ∈ dispatchedBatches svc m env A := hperm.mem_iff.mp hb
  obtain ⟨a, ha, hba⟩ := List.mem_map.mp hb'
  refine ⟨a, ha, ?_⟩
  rw [← hba] at hxb
  exact batchOf_gpu svc m env a x hxb

/-- C3: the result-assembly step returns the drained entries sorted by
`resource_id` with a stable tie-break on `item_index`: whatever the arrival
order of the dispatched workers' batches on the queue (any permutation, so
in particular reverse dispatch order), the collect phase's output is
pairwise ordered by `resource_id` and, within one `resource_id`, by
`item_index`. -/
theorem c3_resultset_sorted (svc : InferenceService) (m : String)
    (env : EnvMap) (A : List WorkAssignment)
    (arrival : List (List WorkResult))
    (hdist : (A.map (·.resource_id)).Nodup)
    (hperm : arrival.Perm (dispatchedBatches svc m env A)) :
    (collectPhase arrival).Pairwise lexLe := by
  refine pairwise_lex_of_filters _ ?_ ?_
  · rw [collectPhase_eq]
    exact sortByGpu_pairwise _
  · intro g
    by_cases hgm : g ∈ A.map (·.resource_id)
    · obtain ⟨a, ha, hga⟩ := List.mem_map.mp hgm
      rw [filter_collectPhase svc m env A a g arrival hdist ha hga hperm]
      exact batchOf_pairwise_idx svc m env a
    · rw [filter_collectPhase_nil svc m env A g arrival hgm hperm]
      constructor

/-- Tiny concrete instance used to witness hypothesis-bearing theorems:
two assignments with one prompt each, run against the echo service. -/
def tinyA : List WorkAssignment := [⟨0, ["a"]⟩, ⟨1, ["b"]⟩]

/-- Witness for C3 at a concrete input: distinct resource ids hold and the
collected output is lexicographically sorted. -/
theorem c3_witness :
    (tinyA.map (·.resource_id)).Nodup ∧
      (collectPhase (dispatchedBatches echoService model_name [] tinyA)).Pairwise
        lexLe :=
  ⟨by decide, c3_resultset_sorted echoService model_name [] tinyA _ (by decide)
    (List.Perm.refl _)⟩

/-- Service whose engine constructor always raises, as when the GPU lacks
memory; used to exercise the worker's `except` path. -/
def failingService : InferenceService where
  construct := fun _ _ => .error "CUDA out of memory"
  generate := fun _ _ prompts => .ok (prompts.map (fun p => "echo:" ++ p))

/-- Single assignment whose worker fails. -/
def c1A : List WorkAssignment := [⟨0, ["a"]⟩]

/-- C1 (counterexample): one assignment with resource id 0 and one work
item is dispatched, so the pair (0,0) was dispatched; the worker's
computation raises, the worker puts `[]`, and the collected ResultSet is
empty — it contains no entry (success or error) for the pair (0,0),
refuting the claim that every dispatched pair has exactly one entry even
when the worker's computation fails. -/
theorem c1_counterexample :
    c1A.map (·.payload.length) = [1] ∧
      collectPhase (dispatchedBatches failingService model_name [] c1A) = [] ∧
      ((collectPhase (dispatchedBatches failingService model_name [] c1A)).filter
        (fun r => r.gpu_id == 0 && r.item_index == 0)).length = 0 :=
  ⟨rfl, rfl, rfl⟩

/-- C1 (amended): for assignments with distinct resource ids and any
arrival order, a worker whose computation succeeds (with one output per
prompt) contributes exactly one ResultSet entry per dispatched
(resource_id, item_index) pair of its payload; a worker whose computation
raises contributes an empty batch, so its resource id has no entries at
all in the ResultSet. -/
theorem c1_exactly_one_per_pair (svc : InferenceService) (m : String)
    (env : EnvMap) (A : List WorkAssignment) (a : WorkAssignment) (g i : Nat)
    (outs : List String) (arrival : List (List WorkResult))
    (hdist : (A.map (·.resource_id)).Nodup) (ha : a ∈ A)
    (hg : a.resource_id = g)
    (hperm : arrival.Perm (dispatchedBatches svc m env A)) :
    (svc.construct g m = .ok () → svc.generate g m a.payload = .ok outs →
      outs.length = a.payload.length → i < a.payload.length →
      ((collectPhase arrival).filter
        (fun r => r.gpu_id == g && r.item_index == i)).length = 1) ∧
    (computationFails svc g m a.payload →
      ((collectPhase arrival).filter (fun r => r.gpu_id == g)).length = 0) := by
  have hchar := filter_collectPhase svc m env A a g arrival hdist ha hg hperm
  constructor
  · intro hc hgen hlen hi
    have hcomm : (collectPhase arrival).filter
        (fun r => r.gpu_id == g && r.item_index == i) =
        ((collectPhase arrival).filter (fun r => r.gpu_id == g)).filter
          (fun r => r.item_index == i) := by
      rw [List.filter_filter]
      exact List.filter_congr (fun x _ => by rw [Bool.and_comm])
    rw [hcomm, hchar]
    have hbuild : buildResults a.resource_id a.payload outs.enum =
        .ok (batchOf svc m env a) :=
      batchOf_success svc m env a outs (hg ▸ hc) (hg ▸ hgen) (le_of_eq hlen)
    have hidx : (batchOf svc m env a).map (·.item_index) =
        List.range outs.length := by
      rw [buildResults_idx _ _ _ _ hbuild]
      exact List.enum_map_fst outs
    have hlenf : ((batchOf svc m env a).filter
        (fun r => r.item_index == i)).length =
        ((batchOf svc m env a).map (·.item_index)).countP (· == i) := by
      rw [← List.countP_eq_length_filter, List.countP_map]
      rfl
    rw [hlenf, hidx]
    have hmem : i ∈ List.range outs.length :=
      List.mem_range.mpr (by omega)
    exact List.count_eq_one_of_mem (List.nodup_range _) hmem
  · intro hf
    rw [hchar, batchOf_fail svc m env a (hg ▸ hf)]
    rfl

/-- Witness for C1's amended theorem: the success side at the echo service
and the failure side at the always-failing service. -/
theorem c1_amended_witness :
    ((collectPhase (dispatchedBatches echoService model_name [] tinyA)).filter
      (fun r => r.gpu_id == 0 && r.item_index == 0)).length = 1 ∧
    ((collectPhase (dispatchedBatches failingService model_name [] c1A)).filter
      (fun r => r.gpu_id == 0)).length = 0 :=
  ⟨(c1_exactly_one_per_pair echoService model_name [] tinyA ⟨0, ["a"]⟩ 0 0
      ["echo:" ++ "a"] _ (by decide) (by decide) rfl (List.Perm.refl _)).1
      rfl rfl (by decide) (by decide),
    (c1_exactly_one_per_pair failingService model_name [] c1A ⟨0, ["a"]⟩ 0 0
      [] _ (by decide) (by decide) rfl (List.Perm.refl _)).2
      (Or.inl ⟨"CUDA out of memory", rfl⟩)⟩

/-- Expected ResultSet of the 3-GPU echo scenario: six entries grouped by
resource id 0, 1, 2, each pair carrying the assignment's two prompts in
payload order together with the echoed output. -/
def expectedResults : List WorkResult :=
  [⟨0, 0, p00, ("echo:" ++ p00).trim⟩, ⟨0, 1, p01, ("echo:" ++ p01).trim⟩,
   ⟨1, 0, p10, ("echo:" ++ p10).trim⟩, ⟨1, 1, p11, ("echo:" ++ p11).trim⟩,
   ⟨2, 0, p20, ("echo:" ++ p20).trim⟩, ⟨2, 1, p21, ("echo:" ++ p21).trim⟩]

/-- C4: with the script's three assignments (resource ids 0,1,2, two
prompts each) and an echoing computation, whatever the arrival order the
collect phase returns exactly six entries, grouped by resource id 0 then 1
then 2, the entry at item index i of each group carrying the i-th prompt of
that assignment together with the computation's output for it. -/
theorem c4_three_gpu_scenario (arrival : List (List WorkResult))
    (hperm : arrival.Perm
      (dispatchedBatches echoService model_name [] assignments3)) :
    collectPhase arrival = expectedResults ∧
      (collectPhase arrival).length = 6 := by
  have hdist : (assignments3.map (·.resource_id)).Nodup := by decide
  have hsorted : (collectPhase arrival).Pairwise
      (fun a b => a.gpu_id ≤ b.gpu_id) := by
    rw [collectPhase_eq]
    exact sortByGpu_pairwise _
  have hlt : ∀ x ∈ collectPhase arrival, x.gpu_id < 3 := by
    intro x hx
    obtain ⟨a, ha, hxa⟩ := mem_collectPhase_gpu echoService model_name []
      assignments3 arrival x hperm hx
    have ha' : a = ⟨0, [p00, p01]⟩ ∨ a = ⟨1, [p10, p11]⟩ ∨
        a = ⟨2, [p20, p21]⟩ := by
      simpa [assignments3] using ha
    rcases ha' with h | h | h <;> subst h <;> rw [hxa] <;> decide
  have hdecomp := sorted_decomp3 _ hsorted hlt
  have h0 := filter_collectPhase echoService model_name [] assignments3
    ⟨0, [p00, p01]⟩ 0 arrival hdist (by simp [assignments3]) rfl hperm
  have h1 := filter_collectPhase echoService model_name [] assignments3
    ⟨1, [p10, p11]⟩ 1 arrival hdist (by simp [assignments3]) rfl hperm
  have h2 := filter_collectPhase echoService model_name [] assignments3
    ⟨2, [p20, p21]⟩ 2 arrival hdist (by simp [assignments3]) rfl hperm
  rw [h0, h1, h2] at hdecomp
  rw [hdecomp]
  exact ⟨rfl, rfl⟩

/-- Witness for C4 at the dispatch-order arrival. -/
theorem c4_witness :
    collectPhase (dispatchedBatches echoService model_name [] assignments3) =
      expectedResults :=
  (c4_three_gpu_scenario _ (List.Perm.refl _)).1

/-- C2: if the worker's guarded computation raises any error (engine
construction, generation, or the result loop), the worker catches it
locally, still performs exactly one queue write — an empty batch standing
for its assignment — with the write as its last action before exiting, and
returns normally (the run is a total function of its inputs), so the
harness's join never waits on a crashed worker. -/
theorem c2_error_reported (svc : InferenceService) (g : Nat) (m : String)
    (ps : List String) (env : EnvMap)
    (hf : computationFails svc g m ps) :
    (run_model_on_gpu svc g m ps env).puts = [[]] ∧
      (run_model_on_gpu svc g m ps env).trace.getLast? = some .queuePut := by
  rcases hc : svc.construct g m with e | u
  · simp only [run_model_on_gpu, hc]
    exact ⟨trivial, rfl⟩
  · rcases hg : svc.generate g m ps with e | outs
    · simp only [run_model_on_gpu, hc, hg]
      exact ⟨trivial, rfl⟩
    · rcases hb : buildResults g ps outs.enum with e | rs
      · simp only [run_model_on_gpu, hc, hg, hb]
        exact ⟨trivial, rfl⟩
      · exfalso
        rcases hf with ⟨e, he⟩ | ⟨e, he⟩ | ⟨outs', e, hg', hb'⟩
        · rw [hc] at he; exact absurd he (by simp)
        · rw [hg] at he; exact absurd he (by simp)
        · rw [hg] at hg'
          have : outs = outs' := by simpa using hg'
          subst this
          rw [hb] at hb'
          exact absurd hb' (by simp)

/-- Witness for C2: the always-failing constructor still yields exactly one
queue write carrying the empty batch. -/
theorem c2_witness :
    (run_model_on_gpu failingService 0 model_name ["a"] []).puts = [[]] ∧
      (run_model_on_gpu failingService 0 model_name
        ["a"] []).trace.getLast? = some .queuePut :=
  c2_error_reported failingService 0 model_name ["a"] []
    (Or.inl ⟨"CUDA out of memory", rfl⟩)

/-- C5: a per-worker error never aborts sibling workers or the harness.
For two runs over the same assignments whose inference services agree on
every resource id other than `k` (in particular, runs differing only in
whether worker `k`'s computation raises), the ResultSet entries of every
worker other than `k` are identical; both runs return normally, the
collect phase being a total function. -/
theorem c5_error_isolation (svc svc' : InferenceService) (m : String)
    (env : EnvMap) (A : List WorkAssignment) (k : Nat)
    (arrival arrival' : List (List WorkResult))
    (hdist : (A.map (·.resource_id)).Nodup)
    (hagree : ∀ g, g ≠ k → svc.construct g m = svc'.construct g m ∧
        ∀ ps, svc.generate g m ps = svc'.generate g m ps)
    (hperm : arrival.Perm (dispatchedBatches svc m env A))
    (hperm' : arrival'.Perm (dispatchedBatches svc' m env A)) :
    ∀ g, g ≠ k →
      (collectPhase arrival).filter (fun r => r.gpu_id == g) =
        (collectPhase arrival').filter (fun r => r.gpu_id == g) := by
  intro g hgk
  by_cases hgm : g ∈ A.map (·.resource_id)
  · obtain ⟨a, ha, hga⟩ := List.mem_map.mp hgm
    rw [filter_collectPhase svc m env A a g arrival hdist ha hga hperm,
        filter_collectPhase svc' m env A a g arrival' hdist ha hga hperm']
    unfold batchOf run_model_on_gpu
    rw [hga, (hagree g hgk).1, (hagree g hgk).2 a.payload]
  · rw [filter_collectPhase_nil svc m env A g arrival hgm hperm,
        filter_collectPhase_nil svc' m env A g arrival' hgm hperm']

/-- Service failing exactly at resource id 1, for witnessing isolation. -/
def failAt1Service : InferenceService where
  construct := fun g _ => if g == 1 then .error "CUDA out of memory" else .ok ()
  generate := fun _ _ prompts => .ok (prompts.map (fun p => "echo:" ++ p))

/-- Witness for C5: worker 0's entries are the same whether worker 1
succeeds (echo service) or always fails. -/
theorem c5_witness :
    (collectPhase (dispatchedBatches echoService model_name [] tinyA)).filter
      (fun r => r.gpu_id == 0) =
    (collectPhase (dispatchedBatches failAt1Service model_name [] tinyA)).filter
      (fun r => r.gpu_id == 0) :=
  c5_error_isolation echoService failAt1Service model_name [] tinyA 1 _ _
    (by decide)
    (fun g hgk => ⟨by simp [echoService, failAt1Service, hgk], fun ps => rfl⟩)
    (List.Perm.refl _) (List.Perm.refl _) 0 (by decide)

/-- C7: in every worker execution, the event scoping hardware visibility to
the worker's own resource id is the trace's first event — so it happens
before engine construction and before any generate call — and visibility
setting occurs exactly once in the whole trace, never again afterwards. -/
theorem c7_visibility_scoped_first (svc : InferenceService) (g : Nat)
    (m : String) (ps : List String) (env : EnvMap) :
    (run_model_on_gpu svc g m ps env).trace.head? =
        some (.setVisibility g) ∧
      (run_model_on_gpu svc g m ps env).trace.countP Event.isSetVisibility
        = 1 := by
  rcases trace_run svc g m ps env with h | h <;> rw [h] <;>
    exact ⟨rfl, rfl⟩

/-! C6: collect-phase ordering and full drain. -/

theorem trace_join_bounds (n : Nat) (arrival : List (List WorkResult))
    (i k : Nat) (h : (harnessTrace n arrival)[i]? = some (.joinEv k)) :
    n ≤ i ∧ i < 2 * n := by
  have hassoc : harnessTrace n arrival =
      ((List.range n).map HEvent.spawnEv) ++
        (((List.range n).map HEvent.joinEv) ++
          ((arrival.map HEvent.getEv) ++ [HEvent.sortEv])) := by
    simp [harnessTrace, List.append_assoc]
  rw [hassoc] at h
  by_cases h1 : i < n
  · exfalso
    rw [List.getElem?_append_left (by simpa using h1)] at h
    rw [List.getElem?_map, List.getElem?_range h1] at h
    exact absurd h (by simp)
  · have h1' : n ≤ i := Nat.le_of_not_lt h1
    rw [List.getElem?_append_right (by simpa using h1')] at h
    simp only [List.length_map, List.length_range] at h
    by_cases h2 : i - n < n
    · exact ⟨h1', by omega⟩
    · exfalso
      have h2' : n ≤ i - n := Nat.le_of_not_lt h2
      rw [List.getElem?_append_right (by simpa using h2')] at h
      simp only [List.length_map, List.length_range] at h
      rcases hval : ((arrival.map HEvent.getEv) ++
          [HEvent.sortEv])[i - n - n]? with _ | e
      · rw [hval] at h; exact absurd h (by simp)
      · rw [hval] at h
        have hmem := List.getElem?_mem hval
        rcases List.mem_append.mp hmem with hm | hm
        · obtain ⟨b, _, hb⟩ := List.mem_map.mp hm
          rw [← hb] at h
          exact absurd h (by simp)
        · have : e = HEvent.sortEv := by simpa using hm
          rw [this] at h
          exact absurd h (by simp)

theorem trace_get_bounds (n : Nat) (arrival : List (List WorkResult))
    (j : Nat) (b : List WorkResult)
    (h : (harnessTrace n arrival)[j]? = some (.getEv b)) : 2 * n ≤ j := by
  have hassoc : harnessTrace n arrival =
      ((List.range n).map HEvent.spawnEv) ++
        (((List.range n).map HEvent.joinEv) ++
          ((arrival.map HEvent.getEv) ++ [HEvent.sortEv])) := by
    simp [harnessTrace, List.append_assoc]
  rw [hassoc] at h
  by_cases h1 : j < n
  · exfalso
    rw [List.getElem?_append_left (by simpa using h1)] at h
    rw [List.getElem?_map, List.getElem?_range h1] at h
    exact absurd h (by simp)
  · have h1' : n ≤ j := Nat.le_of_not_lt h1
    rw [List.getElem?_append_right (by simpa using h1')] at h
    simp only [List.length_map, List.length_range] at h
    by_cases h2 : j - n < n
    · exfalso
      rw [List.getElem?_append_left (by simpa using h2)] at h
      rw [List.getElem?_map, List.getElem?_range h2] at h
      exact absurd h (by simp)
    · omega

/-- C6: in the harness's trace every `join` precedes every queue read (the
collect phase first blocks on all workers, only then reads the channel),
and the drain loop terminates only with the queue empty, its accumulated
output containing every batch the channel held — it is exactly their
concatenation, not a prefix cut off at a fixed count or a done flag. -/
theorem c6_join_all_then_drain (n : Nat) (arrival : List (List WorkResult)) :
    (∀ (i j k : Nat) (b : List WorkResult),
        (harnessTrace n arrival)[i]? = some (HEvent.joinEv k) →
        (harnessTrace n arrival)[j]? = some (HEvent.getEv b) → i < j) ∧
      (drainLoop arrival []).1 = [] ∧
      (drainLoop arrival []).2 = arrival.flatten := by
  refine ⟨?_, ?_, ?_⟩
  · intro i j k b hi hj
    have h1 := trace_join_bounds n arrival i k hi
    have h2 := trace_get_bounds n arrival j b hj
    omega
  · rw [drainLoop_eq]
  · rw [drainLoop_eq]
    rfl

/-- Witness for C6 at one worker and one drained batch: the join event at
index 1 precedes the read event at index 2, and the drain empties the
queue. -/
theorem c6_witness :
    (1 : Nat) < 2 ∧
      (drainLoop [[(⟨0, 0, "a", "b⟩"⟩ : WorkResult)]] []).1 = [] :=
  ⟨(c6_join_all_then_drain 1 [[⟨0, 0, "a", "b⟩"⟩]]).1 1 2 0
      [⟨0, 0, "a", "b⟩"⟩] rfl rfl,
    (c6_join_all_then_drain 1 [[⟨0, 0, "a", "b⟩"⟩]]).2.1⟩

/-! C8: the visibility mutation is confined to the worker's own process. -/

/-- C8: the hardware-visibility mutation a worker performs touches only its
own process state.  The parent environment after the run is the input
environment unchanged; worker j's environment is the parent's copy with
exactly the `CUDA_VISIBLE_DEVICES` binding updated to its own resource id —
every other variable reads as in the parent — and it is independent of the
service, the model name, and every other worker's assignment, so no
mutation by a sibling can reach it. -/
theorem c8_env_isolation (svc svc' : InferenceService) (m m' : String)
    (env : EnvMap) (A A' : List WorkAssignment) (j : Nat)
    (h : j < A.length) (h' : j < A'.length)
    (hsame : A.get ⟨j, h⟩ = A'.get ⟨j, h'⟩) :
    (harnessEnvs svc m env A).1 = env ∧
      (harnessEnvs svc m env A).2[j]? =
        some (setEnv env cudaVisibleDevices
          (toString (A.get ⟨j, h⟩).resource_id)) ∧
      (∀ key, key ≠ cudaVisibleDevices →
        lookupEnv (setEnv env cudaVisibleDevices
          (toString (A.get ⟨j, h⟩).resource_id)) key = lookupEnv env key) ∧
      (harnessEnvs svc m env A).2[j]? = (harnessEnvs svc' m' env A').2[j]? := by
  have hj : ∀ (svc₀ : InferenceService) (m₀ : String)
      (A₀ : List WorkAssignment) (h₀ : j < A₀.length),
      (harnessEnvs svc₀ m₀ env A₀).2[j]? =
        some (setEnv env cudaVisibleDevices
          (toString (A₀.get ⟨j, h₀⟩).resource_id)) := by
    intro svc₀ m₀ A₀ h₀
    unfold harnessEnvs
    rw [List.getElem?_map, List.getElem?_eq_getElem h₀]
    simp [envAfter_run, List.get_eq_getElem]
  refine ⟨rfl, hj svc m A h, ?_, ?_⟩
  · intro key hkey
    have hne : (cudaVisibleDevices == key) = false :=
      beq_eq_false_iff_ne.mpr (Ne.symm hkey)
    simp [lookupEnv, setEnv, List.find?_cons, hne]
  · rw [hj svc m A h, hj svc' m' A' h', hsame]

/-- Witness for C8: parent environment untouched, and worker 0's
environment is the same under two different services and model names. -/
theorem c8_witness :
    (harnessEnvs echoService model_name [] tinyA).1 = ([] : EnvMap) ∧
      (harnessEnvs echoService model_name [] tinyA).2[0]? =
        (harnessEnvs failingService "other-model" [] tinyA).2[0]? :=
  ⟨(c8_env_isolation echoService failingService model_name "other-model" []
      tinyA tinyA 0 (by decide) (by decide) rfl).1,
    (c8_env_isolation echoService failingService model_name "other-model" []
      tinyA tinyA 0 (by decide) (by decide) rfl).2.2.2⟩

/-! C9: creation by the owner, no mutation afterwards. -/

/-- C9: every WorkResult is created by the worker owning its resource id —
each entry of a worker's batch carries that worker's own gpu id — and no
entry is modified after being written to the channel: the collect phase's
output is a permutation of the drained channel contents, entries verbatim
(the harness only reorders; neither worker nor harness rewrites a field). -/
theorem c9_owner_creates_no_mutation (svc : InferenceService) (m : String)
    (env : EnvMap) (a : WorkAssignment) (r : WorkResult)
    (hr : r ∈ batchOf svc m env a) :
    r.gpu_id = a.resource_id ∧
      ∀ arrival : List (List WorkResult),
        (collectPhase arrival).Perm arrival.flatten := by
  refine ⟨batchOf_gpu svc m env a r hr, ?_⟩
  intro arrival
  rw [collectPhase_eq]
  exact sortByGpu_perm _

/-- Witness for C9 at the echo service's worker 0. -/
theorem c9_witness :
    (⟨0, 0, "a", ("echo:" ++ "a").trim⟩ : WorkResult).gpu_id = 0 ∧
      ∀ arrival : List (List WorkResult),
        (collectPhase arrival).Perm arrival.flatten :=
  c9_owner_creates_no_mutation echoService model_name [] ⟨0, ["a"]⟩
    ⟨0, 0, "a", ("echo:" ++ "a").trim⟩ (List.mem_singleton.mpr rfl)

/-! C10: exactly one channel write per worker. -/

theorem flatten_map_singleton {α β : Type} (f : β → List α) (g : β → α)
    (L : List β) (h : ∀ b ∈ L, f b = [g b]) :
    (L.map f).flatten = L.map g := by
  induction L with
  | nil => rfl
  | cons b t ih =>
      simp only [List.map_cons, List.flatten_cons, h b (List.mem_cons_self b t),
        List.cons_append, List.nil_append]
      exact congrArg (List.cons (g b))
        (ih (fun b' hb' => h b' (List.mem_cons_of_mem _ hb')))

/-- Contents of the shared queue once every worker has terminated, in
dispatch order of the writes (the actual arrival order is an arbitrary
permutation of it). -/
def channelContent (svc : InferenceService) (m : String) (env : EnvMap)
    (A : List WorkAssignment) : List (List WorkResult) :=
  ((spawnAll svc m env A).map (·.puts)).flatten

/-- C10: every worker writes to the shared queue exactly once, on the
success path and on the error path alike, so after all workers have
terminated the channel holds exactly one batch per assignment — its
contents are precisely the per-assignment batches, `A.length` of them,
however many workers failed. -/
theorem c10_one_put_per_worker (svc : InferenceService) (m : String)
    (env : EnvMap) (A : List WorkAssignment)
    (arrival : List (List WorkResult))
    (hperm : arrival.Perm (channelContent svc m env A)) :
    (∀ w ∈ spawnAll svc m env A, w.puts.length = 1) ∧
      channelContent svc m env A = dispatchedBatches svc m env A ∧
      arrival.length = A.length := by
  have hcontent : channelContent svc m env A = dispatchedBatches svc m env A := by
    unfold channelContent spawnAll dispatchedBatches
    rw [List.map_map]
    exact flatten_map_singleton _ _ A (fun a _ => puts_run svc a.resource_id m
      a.payload env)
  refine ⟨?_, hcontent, ?_⟩
  · intro w hw
    obtain ⟨a, ha, hwa⟩ := List.mem_map.mp hw
    rw [← hwa, puts_run]
    rfl
  · rw [hperm.length_eq, hcontent]
    simp [dispatchedBatches]

/-- Witness for C10: with one succeeding and one failing worker the channel
holds exactly two batches. -/
theorem c10_witness :
    (channelContent failAt1Service model_name [] tinyA =
        dispatchedBatches failAt1Service model_name [] tinyA) ∧
      (channelContent failAt1Service model_name [] tinyA).length =
        tinyA.length :=
  ⟨(c10_one_put_per_worker failAt1Service model_name [] tinyA _
      (List.Perm.refl _)).2.1,
    (c10_one_put_per_worker failAt1Service model_name [] tinyA _
      (List.Perm.refl _)).2.2⟩

end MultiGpu
